import Mathlib

/-!
# Verification of the `rocket` directive evaluation engine

Shallow embedding of `src/directives.rs` (the directive handler set) together
with the parts of the evaluator interface those handlers use.  The evaluator
core itself (`evaluator.rs`) is not part of the sources; where its behaviour
is needed it is modelled from the specification, and every such definition is
marked `Modelled from the spec:` in its doc comment.

Conventions of the embedding:
* Rust `String` is Lean `String`; `HashMap` fields become association lists
  with update-in-place insertion (`assocInsert`), so lookups behave exactly
  like the map.
* `Result<String, ()>` becomes `Option String` (`none` = `Err(())`).
* A Rust panic (e.g. an out-of-range slice) or a non-terminating recursion is
  modelled by an outer `Option` layer: a handler produces
  `Option (Evaluator × Option String)`, where the outer `none` means the
  process dies (panic / divergence) and the inner `Option String` is the
  `Result` value.  Recursion that is unbounded in Rust (variable lookup and
  `include`) consumes `fuel`; exhausted fuel is reported as the outer `none`.
* External collaborators (the parser and the path resolution of `include`,
  and the regular-expression engine of the `regex` crate) are abstracted as
  function-valued fields/parameters, as §6 of the spec treats them.
-/

namespace Rocket

/-- `parse::NodeValue` / `parse::Node`: a node is either owned text or a list
of children.  The `file_id` provenance field never influences the behaviour
of the directives under study and is omitted. -/
inductive Node where
  | owned : String → Node
  | children : List Node → Node

/-- `evaluator::StoredValue`: a context slot holding a raw node
(`StoredValue::Node`). -/
inductive StoredValue where
  | node : Node → StoredValue

/-- `evaluator::RefDef`: a reference definition, `RefDef::new(title, slug)`. -/
structure RefDef where
  title : String
  slug : String
deriving DecidableEq, Repr

/-- A regular-expression checker of the `regex` crate, abstracted to its
`is_match` function (the engine is an external library). -/
def RegexMatcher : Type := String → Bool

/-- The directive handlers of `directives.rs` that the development models,
as the data each carries (`Template` carries its template text and checkers,
`Version` its split version vector, `Heading` its level marker). -/
inductive Handler where
  | dummy : Handler
  | version : List String → Handler
  | concat : Handler
  | template : String → List RegexMatcher → Handler
  | letDir : Handler
  | define : Handler
  | heading : String → Handler
  | toctree : Handler
  | includeDir : Handler
  | importDir : Handler

/-- Association-list lookup, mirroring `HashMap::get` / `Entry` inspection. -/
def assocGet {α : Type} : List (String × α) → String → Option α
  | [], _ => none
  | (a, b) :: t, k => if a = k then some b else assocGet t k

/-- Association-list insertion, mirroring `HashMap::insert` / the
`Entry::Occupied`/`Vacant` write: replace the binding in place, or append. -/
def assocInsert {α : Type} : List (String × α) → String → α → List (String × α)
  | [], k, v => [(k, v)]
  | (a, b) :: t, k, v =>
    if a = k then (k, v) :: t else (a, b) :: assocInsert t k v

/-- Association-list removal, mirroring `HashMap::remove`. -/
def assocRemove {α : Type} : List (String × α) → String → List (String × α)
  | [], _ => []
  | (a, b) :: t, k =>
    if a = k then assocRemove t k else (a, b) :: assocRemove t k

/-- The evaluator state visible to the modelled directives: the directive
registry, the variable context `ctx`, the reference table `refdefs`, the
toctree (as the ordered list of `add(parent, child, title)` calls), and the
current page slug.  `Modelled from the spec:` `evaluator.rs` is not among
the sources; the fields are those the handlers in `directives.rs` touch,
plus an error counter standing in for `Evaluator::error` logging, and the
external parser/path-resolution interface of `include` as function fields. -/
structure Evaluator where
  registry : List (String × Handler)
  ctx : List (String × StoredValue)
  refdefs : List (String × RefDef)
  toctree : List (String × String × Option String)
  currentSlug : String
  resolvePath : String → String
  parseFile : String → Option Node
  errors : Nat

/-- `Evaluator::error`: log an error against a node (modelled as a counter;
the message and provenance do not influence control flow). -/
def recordError (st : Evaluator) : Evaluator :=
  { st with errors := st.errors + 1 }

/-- The scanner behind `str::split('.')`: emit the (possibly empty)
substrings between every occurrence of `'.'`, accumulating the current
piece in reverse. -/
def splitDotsGo (cur : List Char) : List Char → List String
  | [] => [String.mk cur.reverse]
  | c :: rest =>
    if c = '.' then String.mk cur.reverse :: splitDotsGo [] rest
    else splitDotsGo (c :: cur) rest

/-- `Version::new`: split the version string at every `'.'`
(`version.split('.').collect()`). -/
def versionNew (version : String) : List String :=
  splitDotsGo [] version.toList

/-- `arg.matches('.').count()` of `Version::handle`. -/
def countDots (s : String) : Nat :=
  (s.toList.filter (fun c => c = '.')).length

/-- The Rust slice `&v[..n]`, which panics (`none`) when `n > v.length`. -/
def sliceTo {α : Type} (v : List α) (n : Nat) : Option (List α) :=
  if n ≤ v.length then some (v.take n) else none

/-- `Heading::new`: the level marker string for levels 1–6; any other level
panics (`none`). -/
def headingLevelStr : Nat → Option String
  | 1 => some "#"
  | 2 => some "##"
  | 3 => some "###"
  | 4 => some "####"
  | 5 => some "#####"
  | 6 => some "######"
  | _ => none

/-- `format!("\n{} {}\n", level, text)` of `Heading::handle`. -/
def headingFormat (level text : String) : String :=
  "\n" ++ level ++ " " ++ text ++ "\n"

/-- The code-point ranges of the Unicode `Nd` (decimal number) general
category — the character class matched by the `regex` crate's `\d` under
its default Unicode semantics (`\p{Nd}`). -/
def ndRanges : List (Nat × Nat) :=
  [(0x30, 0x39), (0x660, 0x669), (0x6F0, 0x6F9), (0x7C0, 0x7C9),
   (0x966, 0x96F), (0x9E6, 0x9EF), (0xA66, 0xA6F), (0xAE6, 0xAEF),
   (0xB66, 0xB6F), (0xBE6, 0xBEF), (0xC66, 0xC6F), (0xCE6, 0xCEF),
   (0xD66, 0xD6F), (0xDE6, 0xDEF), (0xE50, 0xE59), (0xED0, 0xED9),
   (0xF20, 0xF29), (0x1040, 0x1049), (0x1090, 0x1099), (0x17E0, 0x17E9),
   (0x1810, 0x1819), (0x1946, 0x194F), (0x19D0, 0x19D9),
   (0x1A80, 0x1A89), (0x1A90, 0x1A99), (0x1B50, 0x1B59),
   (0x1BB0, 0x1BB9), (0x1C40, 0x1C49), (0x1C50, 0x1C59),
   (0xA620, 0xA629), (0xA8D0, 0xA8D9), (0xA900, 0xA909),
   (0xA9D0, 0xA9D9), (0xA9F0, 0xA9F9), (0xAA50, 0xAA59),
   (0xABF0, 0xABF9), (0xFF10, 0xFF19), (0x104A0, 0x104A9),
   (0x10D30, 0x10D39), (0x11066, 0x1106F), (0x110F0, 0x110F9),
   (0x11136, 0x1113F), (0x111D0, 0x111D9), (0x112F0, 0x112F9),
   (0x11450, 0x11459), (0x114D0, 0x114D9), (0x11650, 0x11659),
   (0x116C0, 0x116C9), (0x11730, 0x11739), (0x118E0, 0x118E9),
   (0x11950, 0x11959), (0x11C50, 0x11C59), (0x11D50, 0x11D59),
   (0x11DA0, 0x11DA9), (0x11F50, 0x11F59), (0x16A60, 0x16A69),
   (0x16AC0, 0x16AC9), (0x16B50, 0x16B59), (0x1D7CE, 0x1D7FF),
   (0x1E140, 0x1E149), (0x1E2F0, 0x1E2F9), (0x1E4F0, 0x1E4F9),
   (0x1E950, 0x1E959), (0x1FBF0, 0x1FBF9)]

/-- Membership of a character in `\p{Nd}`, the digit class of the
substitution pattern `\$\{(\d)\}`. -/
def unicodeNd (c : Char) : Bool :=
  ndRanges.any fun r => r.1 ≤ c.toNat && c.toNat ≤ r.2

/-- The scanner of `Template::handle`'s `replace_all` with the pattern
`\$\{(\d)\}`: a four-character marker `${d}` matches whenever `d` lies in
the Unicode class `\d` = `\p{Nd}`.  On a match, the closure runs
`str::parse::<usize>(&captures[1]).expect(...)`, which succeeds exactly for
the ascii digits `0`–`9` (replacement by `args.get(n)`, empty when out of
range) and otherwise **panics** (the outer `none`); since the ascii digits
lie inside `Nd` (the range `0x30`–`0x39` of `ndRanges`), testing
`c.isDigit` first and `unicodeNd c` second is the same case split.  At any
position where the pattern does not match, one character is copied and the
scan continues. -/
def substGo (args : List String) : List Char → Option (List Char)
  | '$' :: '\x7b' :: c :: '\x7d' :: rest =>
    if c.isDigit then
      (substGo args rest).map fun out =>
        (args.getD (c.toNat - '0'.toNat) "").toList ++ out
    else if unicodeNd c then
      none
    else
      (substGo args ('\x7b' :: c :: '\x7d' :: rest)).map fun out => '$' :: out
  | c :: rest => (substGo args rest).map fun out => c :: out
  | [] => some []

/-- Marker substitution of `Template::handle`: `RE.replace_all` over the
template text; `none` is the panic on a marker whose matched digit is not
ascii. -/
def tmplSubst (template : String) (args : List String) : Option String :=
  (substGo args template.toList).map String.mk

/-- The validation outcome of `Template::handle`'s checker pass on already
evaluated argument strings: every argument (padded with `""` out to the
checker count) must match its positional checker; positions beyond the
checker list are unchecked. -/
def allChecksPass : List String → List RegexMatcher → Bool
  | _, [] => true
  | [], c :: cs => c "" && allChecksPass [] cs
  | s :: ss, c :: cs => c s && allChecksPass ss cs

/-- The argument list `Template::handle` collects on success: the evaluated
arguments padded with empty strings out to the checker count (the padded
length is `max` of the two counts). -/
def padArgs (strs : List String) (checkerCount : Nat) : List String :=
  strs ++ List.replicate (checkerCount - strs.length) ""

/-- The in-order restore loop at the end of `Let::handle`: rebind each saved
key to its saved prior value, or remove it if it was absent. -/
def restoreCtx (ctx : List (String × StoredValue)) :
    List (String × Option StoredValue) → List (String × StoredValue)
  | [] => ctx
  | (k, some v) :: rest => restoreCtx (assocInsert ctx k v) rest
  | (k, none) :: rest => restoreCtx (assocRemove ctx k) rest

mutual

/-- `Modelled from the spec:` `Evaluator::evaluate` (SS4.1; `evaluator.rs` is
not among the sources).  A `Leaf` returns its text verbatim.  For a `Group`,
the first child must be a `Leaf` naming a directive in the registry; the
remaining children are passed unevaluated to the handler.  If the name is
not a directive, it is resolved as a bound variable whose stored node is
re-evaluated (`lookup`, lazy semantics); an unknown name or a handler
failure is logged (`UnknownDirective`/`UndefinedVariable`) and the call
yields empty text, matching the `fn evaluate(&mut self, node) -> String`
signature observed at every call site in `directives.rs`. -/
def evaluate (fuel : Nat) (st : Evaluator) (node : Node) :
    Option (Evaluator × String) :=
  match node with
  | .owned s => some (st, s)
  | .children [] => some (recordError st, "")
  | .children (.children _ :: _) => some (recordError st, "")
  | .children (.owned name :: rest) =>
    match assocGet st.registry name with
    | some h =>
      (handleH fuel h st rest).map fun (st1, res) =>
        match res with
        | some out => (st1, out)
        | none => (recordError st1, "")
    | none =>
      match assocGet st.ctx name, fuel with
      | some (.node stored), f + 1 => evaluate f st stored
      | some (.node _), 0 => none
      | none, _ => some (recordError st, "")
termination_by (fuel, sizeOf node, 3, 0)

/-- `consume_string` of `directives.rs`, applied to one node of the argument
iterator: owned text is taken verbatim, a group is evaluated. -/
def consumeOne (fuel : Nat) (st : Evaluator) (n : Node) :
    Option (Evaluator × String) :=
  match n with
  | .owned s => some (st, s)
  | .children cs => evaluate fuel st (.children cs)
termination_by (fuel, sizeOf n, 4, 0)

/-- The fold of `Concat::handle`: evaluate every argument in order and
concatenate the results. -/
def evalConcat (fuel : Nat) (st : Evaluator) (nodes : List Node) :
    Option (Evaluator × String) :=
  match nodes with
  | [] => some (st, "")
  | n :: rest =>
    (evaluate fuel st n).bind fun (st1, s) =>
      (evalConcat fuel st1 rest).map fun (st2, s2) => (st2, s ++ s2)
termination_by (fuel, sizeOf nodes, 1, 0)

/-- The argument-collection pipeline of `Template::handle`: arguments are
evaluated left to right (owned text taken verbatim), padded with `""` once
exhausted, checked against the positional checkers (`None` past the checker
list), taking `max(args.len(), checkers.len())` positions, and collection
stops at the first failing check (`collect::<Result<_, _>>`). -/
def templateGo (fuel : Nat) (st : Evaluator) (args : List Node)
    (checkers : List RegexMatcher) :
    Option (Evaluator × Option (List String)) :=
  match args, checkers with
  | [], [] => some (st, some [])
  | [], c :: cs =>
    if c "" then
      (templateGo fuel st [] cs).map fun (st1, res) =>
        (st1, res.map fun strs => "" :: strs)
    else some (st, none)
  | a :: rest, cs =>
    (consumeOne fuel st a).bind fun (st1, s) =>
      match cs with
      | [] =>
        (templateGo fuel st1 rest []).map fun (st2, res) =>
          (st2, res.map fun strs => s :: strs)
      | c :: cs2 =>
        if c s then
          (templateGo fuel st1 rest cs2).map fun (st2, res) =>
            (st2, res.map fun strs => s :: strs)
        else some (st1, none)
termination_by (fuel, sizeOf args, 1, checkers.length)

/-- The installation loop of `Let::handle` over `children.chunks(2)`: each
key and value is evaluated, the value is stored as a string node, the prior
binding (or its absence) is saved via the `Entry` api, and the new binding
is installed; the saved `(key, original)` pairs are collected in order.
The singleton case cannot arise: the caller has checked the list is of even
length. -/
def letPairs (fuel : Nat) (st : Evaluator) (pairs : List Node) :
    Option (Evaluator × List (String × Option StoredValue)) :=
  match pairs with
  | [] => some (st, [])
  | k :: v :: rest =>
    (evaluate fuel st k).bind fun (st1, key) =>
      (evaluate fuel st1 v).bind fun (st2, value) =>
        (letPairs fuel
            { st2 with
              ctx := assocInsert st2.ctx key (StoredValue.node (.owned value)) }
            rest).map
          fun (st4, vars) => (st4, (key, assocGet st2.ctx key) :: vars)
  | [_] => some (st, [])
termination_by (fuel, sizeOf pairs, 1, 0)

/-- The argument loop of `TocTree::handle`: an owned argument is added as a
bare slug under `cur`; a 2-child group has its title and slug evaluated and
is added with the title; any other group aborts with an error. -/
def tocGo (fuel : Nat) (st : Evaluator) (cur : String) (args : List Node) :
    Option (Evaluator × Option String) :=
  match args with
  | [] => some (st, some "")
  | .owned slug :: rest =>
    tocGo fuel { st with toctree := st.toctree ++ [(cur, slug, none)] } cur rest
  | .children [c0, c1] :: rest =>
    (evaluate fuel st c0).bind fun (st1, title) =>
      (evaluate fuel st1 c1).bind fun (st2, slug) =>
        tocGo fuel
          { st2 with toctree := st2.toctree ++ [(cur, slug, some title)] }
          cur rest
  | .children _ :: _ => some (st, none)
termination_by (fuel, sizeOf args, 1, 0)

/-- `Version::handle`: no argument yields the joined version; one argument
is evaluated, an empty result yields the empty string, otherwise the version
vector is sliced to `count('.') + 1` components (the slice panics when that
exceeds the vector length); any other arity is an error. -/
def handleVersion (fuel : Nat) (v : List String) (st : Evaluator)
    (args : List Node) : Option (Evaluator × Option String) :=
  match args with
  | [] => some (st, some (String.intercalate "." v))
  | [a] =>
    (evaluate fuel st a).bind fun (st1, arg) =>
      if arg = "" then some (st1, some "")
      else
        (sliceTo v (countDots arg + 1)).map fun comps =>
          (st1, some (String.intercalate "." comps))
  | _ => some (st, none)
termination_by (fuel, sizeOf args, 2, 0)

/-- `Concat::handle`. -/
def handleConcat (fuel : Nat) (st : Evaluator) (args : List Node) :
    Option (Evaluator × Option String) :=
  (evalConcat fuel st args).map fun (st1, s) => (st1, some s)
termination_by (fuel, sizeOf args, 2, 0)

/-- `Template::handle`: collect and validate the arguments, then substitute
them into the template text (the substitution itself can panic on a marker
holding a matched non-ascii digit). -/
def handleTemplate (fuel : Nat) (tmpl : String) (cs : List RegexMatcher)
    (st : Evaluator) (args : List Node) : Option (Evaluator × Option String) :=
  (templateGo fuel st args cs).bind fun (st1, res) =>
    match res with
    | none => some (st1, none)
    | some strs => (tmplSubst tmpl strs).map fun out => (st1, some out)
termination_by (fuel, sizeOf args, 2, 0)

/-- `Let::handle`: the first argument must be an even-length group of
key/value pairs; the pairs are installed (saving prior bindings), the
remaining arguments are concatenated through `Concat::handle`, and the saved
bindings are restored in order before the result is returned. -/
def handleLet (fuel : Nat) (st : Evaluator) (args : List Node) :
    Option (Evaluator × Option String) :=
  match args with
  | [] => some (st, none)
  | kvs :: rest =>
    match kvs with
    | .owned _ => some (st, none)
    | .children childs =>
      if childs.length % 2 != 0 then some (st, none)
      else
        (letPairs fuel st childs).bind fun (st1, vars) =>
          (handleConcat fuel st1 rest).map fun (st2, result) =>
            ({ st2 with ctx := restoreCtx st2.ctx vars }, result)
termination_by (fuel, sizeOf args, 2, 0)

/-- `Define::handle`: `(key, value)` binds the raw value node (lazy);
`("evaluate", key, value)` evaluates the value and binds the frozen result
(eager); any other shape is an error. -/
def handleDefine (fuel : Nat) (st : Evaluator) (args : List Node) :
    Option (Evaluator × Option String) :=
  match args with
  | [] => some (st, none)
  | a1 :: rest1 =>
    (consumeOne fuel st a1).bind fun (st1, arg1) =>
      match rest1 with
      | [] => some (st1, none)
      | [arg2] =>
        some ({ st1 with
          ctx := assocInsert st1.ctx arg1 (StoredValue.node arg2) }, some "")
      | [arg2, arg3] =>
        if arg1 = "evaluate" then
          (evaluate fuel st1 arg2).bind fun (st2, key) =>
            (evaluate fuel st2 arg3).map fun (st3, evaluated) =>
              ({ st3 with
                ctx := assocInsert st3.ctx key
                  (StoredValue.node (.owned evaluated)) }, some "")
        else some (st1, none)
      | _ :: _ :: _ :: _ => some (st1, none)
termination_by (fuel, sizeOf args, 2, 0)

/-- `Heading::handle`: the first argument is required; with no second
argument it is the heading text; with a second argument the pair is
`(refId, title)`, a `RefDef` for the current page is registered under the
refId, and the title becomes the heading text.  Arguments past the second
are never read from the iterator. -/
def handleHeading (fuel : Nat) (lvl : String) (st : Evaluator)
    (args : List Node) : Option (Evaluator × Option String) :=
  match args with
  | [] => some (st, none)
  | a1 :: rest =>
    (consumeOne fuel st a1).bind fun (st1, arg1) =>
      match rest with
      | [] => some (st1, some (headingFormat lvl arg1))
      | a2 :: _ =>
        (consumeOne fuel st1 a2).map fun (st2, title) =>
          ({ st2 with
            refdefs := assocInsert st2.refdefs arg1 ⟨title, st2.currentSlug⟩ },
           some (headingFormat lvl title))
termination_by (fuel, sizeOf args, 2, 0)

/-- `Include::handle`: exactly one argument, evaluated as a path and
resolved through the external parser interface; a parse failure is logged
and errs, otherwise the parsed tree is evaluated and returned inline. -/
def handleInclude (fuel : Nat) (st : Evaluator) (args : List Node) :
    Option (Evaluator × Option String) :=
  match args with
  | [a] =>
    (evaluate fuel st a).bind fun (st1, pathStr) =>
      match st1.parseFile (st1.resolvePath pathStr) with
      | none => some (recordError st1, none)
      | some node =>
        match fuel with
        | 0 => none
        | f + 1 =>
          (evaluate f st1 node).map fun (st2, out) => (st2, some out)
  | _ => some (st, none)
termination_by (fuel, sizeOf args, 2, 0)

/-- `Import::handle`: run `Include::handle` on the same arguments,
propagating failure (`?`), and discard the output. -/
def handleImport (fuel : Nat) (st : Evaluator) (args : List Node) :
    Option (Evaluator × Option String) :=
  (handleInclude fuel st args).map fun (st1, res) =>
    (st1, res.map fun _ => "")
termination_by (fuel, sizeOf args, 2, 1)

/-- Dispatch from a handler datum to its `DirectiveHandler::handle`
implementation (`Dummy::handle` ignores its arguments and succeeds with
empty text; `TocTree::handle` reads the current slug once and walks its
arguments). -/
def handleH (fuel : Nat) (h : Handler) (st : Evaluator) (args : List Node) :
    Option (Evaluator × Option String) :=
  match h with
  | .dummy => some (st, some "")
  | .version v => handleVersion fuel v st args
  | .concat => handleConcat fuel st args
  | .template tmpl cs => handleTemplate fuel tmpl cs st args
  | .letDir => handleLet fuel st args
  | .define => handleDefine fuel st args
  | .heading lvl => handleHeading fuel lvl st args
  | .toctree => tocGo fuel st st.currentSlug args
  | .includeDir => handleInclude fuel st args
  | .importDir => handleImport fuel st args
termination_by (fuel, sizeOf args, 2, 2)

end

/-- The in-order evaluation of a whole argument list through
`consume_string`'s per-node rule (owned text verbatim, groups evaluated),
threading the evaluator state: the reference trace against which a
`Template` invocation with arbitrary — leaf or group — call-site arguments
is judged. -/
def consumeList (fuel : Nat) (st : Evaluator) :
    List Node → Option (Evaluator × List String)
  | [] => some (st, [])
  | a :: rest =>
    (consumeOne fuel st a).bind fun (st1, s) =>
      (consumeList fuel st1 rest).map fun (st2, ss) => (st2, s :: ss)

/-- A closed evaluator state for the concrete instances, mirroring the
`Evaluator::new()` fixture of the unit tests in `directives.rs`: empty
registry, context and tables, empty slug, and a parser that knows no
files. -/
def emptyEvaluator : Evaluator :=
  { registry := [], ctx := [], refdefs := [], toctree := [], currentSlug := "",
    resolvePath := id, parseFile := fun _ => none, errors := 0 }

/-- The checker `^.+$` of the spec's template example: with the `regex`
crate's default flags, `.` matches any character but a newline and the
anchors span the whole haystack, so `is_match` holds exactly for a nonempty
newline-free string. -/
def reNonEmptyLine : RegexMatcher := fun s =>
  !s.toList.isEmpty && s.toList.all (fun c => c ≠ '\n')

/-- The checker `^/.*$` of the spec's template example: a leading `/`
followed by newline-free text. -/
def reSlashLine : RegexMatcher := fun s =>
  match s.toList with
  | '/' :: rest => rest.all (fun c => c ≠ '\n')
  | _ => false

/-- A binding group of literal key/value text, as `Let`'s first argument:
`(k₁, v₁), (k₂, v₂), …` becomes `[Leaf k₁, Leaf v₁, Leaf k₂, Leaf v₂, …]`. -/
def mkLetChildren : List (String × String) → List Node
  | [] => []
  | (k, v) :: rest => .owned k :: .owned v :: mkLetChildren rest

/-- The context after `Let` has installed a list of literal key/value
pairs in order. -/
def installCtx (ctx : List (String × StoredValue)) :
    List (String × String) → List (String × StoredValue)
  | [] => ctx
  | (k, v) :: rest =>
    installCtx (assocInsert ctx k (StoredValue.node (.owned v))) rest

/-- The `(key, saved prior value)` list `Let` collects while installing a
list of literal key/value pairs: each save is read from the context as it
stands when that pair is processed. -/
def savedCtx (ctx : List (String × StoredValue)) :
    List (String × String) → List (String × Option StoredValue)
  | [] => []
  | (k, v) :: rest =>
    (k, assocGet ctx k) ::
      savedCtx (assocInsert ctx k (StoredValue.node (.owned v))) rest

theorem assocGet_insert {α : Type} (m : List (String × α)) (k k' : String)
    (v : α) :
    assocGet (assocInsert m k v) k' = if k = k' then some v else assocGet m k' := by
  induction m with
  | nil => simp [assocInsert, assocGet]
  | cons p t ih =>
    obtain ⟨a, b⟩ := p
    by_cases hak : a = k <;> by_cases hkk : k = k' <;> by_cases hk' : a = k' <;>
      simp_all [assocInsert, assocGet]

theorem assocGet_remove {α : Type} (m : List (String × α)) (k k' : String) :
    assocGet (assocRemove m k) k' = if k = k' then none else assocGet m k' := by
  induction m with
  | nil => simp [assocRemove, assocGet]
  | cons p t ih =>
    obtain ⟨a, b⟩ := p
    by_cases hak : a = k <;> by_cases hkk : k = k' <;> by_cases hk' : a = k' <;>
      simp_all [assocRemove, assocGet]

theorem restoreCtx_get_of_not_mem (vars : List (String × Option StoredValue))
    (ctx : List (String × StoredValue)) (k : String)
    (h : k ∉ vars.map Prod.fst) :
    assocGet (restoreCtx ctx vars) k = assocGet ctx k := by
  induction vars generalizing ctx with
  | nil => rfl
  | cons p rest ih =>
    obtain ⟨k0, o0⟩ := p
    simp only [List.map_cons, List.mem_cons, not_or] at h
    have hk0 : ¬k0 = k := fun e => h.1 e.symm
    cases o0 with
    | some v =>
      rw [restoreCtx, ih _ h.2, assocGet_insert, if_neg hk0]
    | none =>
      rw [restoreCtx, ih _ h.2, assocGet_remove, if_neg hk0]

theorem restoreCtx_get_of_mem (vars : List (String × Option StoredValue))
    (ctx : List (String × StoredValue)) (k : String) (orig : Option StoredValue)
    (hnd : (vars.map Prod.fst).Nodup) (hmem : (k, orig) ∈ vars) :
    assocGet (restoreCtx ctx vars) k = orig := by
  induction vars generalizing ctx with
  | nil => cases hmem
  | cons p rest ih =>
    obtain ⟨k0, o0⟩ := p
    simp only [List.map_cons, List.nodup_cons] at hnd
    rcases List.mem_cons.mp hmem with heq | hrest
    · cases heq
      cases orig with
      | some v =>
        rw [restoreCtx, restoreCtx_get_of_not_mem _ _ _ hnd.1, assocGet_insert,
          if_pos rfl]
      | none =>
        rw [restoreCtx, restoreCtx_get_of_not_mem _ _ _ hnd.1, assocGet_remove,
          if_pos rfl]
    · cases o0 with
      | some v =>
        rw [restoreCtx]
        exact ih _ hnd.2 hrest
      | none =>
        rw [restoreCtx]
        exact ih _ hnd.2 hrest

theorem savedCtx_keys (ctx : List (String × StoredValue))
    (kvs : List (String × String)) :
    (savedCtx ctx kvs).map Prod.fst = kvs.map Prod.fst := by
  induction kvs generalizing ctx with
  | nil => rfl
  | cons p rest ih =>
    obtain ⟨k, v⟩ := p
    simp [savedCtx, ih]

theorem savedCtx_of_nodup (ctx : List (String × StoredValue))
    (kvs : List (String × String)) (hnd : (kvs.map Prod.fst).Nodup) :
    savedCtx ctx kvs = kvs.map fun p => (p.1, assocGet ctx p.1) := by
  induction kvs generalizing ctx with
  | nil => rfl
  | cons p rest ih =>
    obtain ⟨k, v⟩ := p
    simp only [List.map_cons, List.nodup_cons] at hnd
    rw [savedCtx, ih _ hnd.2, List.map_cons]
    congr 1
    apply List.map_congr_left
    intro q hq
    have hkq : ¬k = q.1 := fun e => hnd.1 (e ▸ List.mem_map_of_mem Prod.fst hq)
    rw [assocGet_insert, if_neg hkq]

theorem mkLetChildren_length (kvs : List (String × String)) :
    (mkLetChildren kvs).length = 2 * kvs.length := by
  induction kvs with
  | nil => rfl
  | cons p rest ih =>
    obtain ⟨k, v⟩ := p
    simp [mkLetChildren, ih]
    omega

theorem letPairs_leaves (fuel : Nat) (st : Evaluator)
    (kvs : List (String × String)) :
    letPairs fuel st (mkLetChildren kvs) =
      some ({ st with ctx := installCtx st.ctx kvs }, savedCtx st.ctx kvs) := by
  induction kvs generalizing st with
  | nil => simp [mkLetChildren, letPairs, installCtx, savedCtx]
  | cons p rest ih =>
    obtain ⟨k, v⟩ := p
    simp [mkLetChildren, letPairs, evaluate, installCtx, savedCtx, ih]

theorem handleLet_restore_saved (fuel : Nat) (st st1 st2 : Evaluator)
    (childs rest : List Node) (vars : List (String × Option StoredValue))
    (res : Option String) (k : String) (orig : Option StoredValue)
    (heven : childs.length % 2 = 0)
    (hpairs : letPairs fuel st childs = some (st1, vars))
    (hnd : (vars.map Prod.fst).Nodup)
    (hmem : (k, orig) ∈ vars)
    (hrun : handleH fuel .letDir st (Node.children childs :: rest) =
      some (st2, res)) :
    assocGet st2.ctx k = orig := by
  simp only [handleH, handleLet, heven, bne_self_eq_false, if_false,
    Bool.false_eq_true, hpairs, Option.some_bind] at hrun
  cases hcc : handleConcat fuel st1 rest with
  | none => rw [hcc] at hrun; cases hrun
  | some p =>
    obtain ⟨stB, r⟩ := p
    rw [hcc] at hrun
    simp only [Option.map_some', Option.some.injEq, Prod.mk.injEq] at hrun
    obtain ⟨hst, _⟩ := hrun
    rw [← hst]
    exact restoreCtx_get_of_mem vars stB.ctx k orig hnd hmem

/-- **C1** (corrected).  After a `Let` call, every installed key is
restored to its *saved prior value* — the binding in force immediately
before that key's pair was installed — for any body `rest` and any nesting
(conjunct 1).  When the binding group is literal key/value text whose keys
are pairwise distinct, the saved value is the key's pre-call binding, so
every installed key is restored exactly to its pre-call state, regardless
of how the body evaluates (conjunct 2).  The unconditional claim of the
spec fails when the binding group repeats a key, see
`C1_counterexample`. -/
theorem C1_let_restores_installed_keys :
    (∀ (fuel : Nat) (st st1 st2 : Evaluator) (childs rest : List Node)
        (vars : List (String × Option StoredValue)) (res : Option String)
        (k : String) (orig : Option StoredValue),
      childs.length % 2 = 0 →
      letPairs fuel st childs = some (st1, vars) →
      (vars.map Prod.fst).Nodup →
      (k, orig) ∈ vars →
      handleH fuel .letDir st (Node.children childs :: rest) = some (st2, res) →
      assocGet st2.ctx k = orig) ∧
    (∀ (fuel : Nat) (st st2 : Evaluator) (kvs : List (String × String))
        (rest : List Node) (res : Option String) (k : String),
      (kvs.map Prod.fst).Nodup →
      k ∈ kvs.map Prod.fst →
      handleH fuel .letDir st (Node.children (mkLetChildren kvs) :: rest) =
        some (st2, res) →
      assocGet st2.ctx k = assocGet st.ctx k) := by
  constructor
  · intro fuel st st1 st2 childs rest vars res k orig heven hpairs hnd hmem hrun
    exact handleLet_restore_saved fuel st st1 st2 childs rest vars res k orig
      heven hpairs hnd hmem hrun
  · intro fuel st st2 kvs rest res k hnd hk hrun
    have heven : (mkLetChildren kvs).length % 2 = 0 := by
      rw [mkLetChildren_length]; omega
    have hpairs := letPairs_leaves fuel st kvs
    rw [savedCtx_of_nodup st.ctx kvs hnd] at hpairs
    have hndv : ((kvs.map fun p => (p.1, assocGet st.ctx p.1)).map Prod.fst).Nodup := by
      have : (kvs.map fun p => (p.1, assocGet st.ctx p.1)).map Prod.fst =
          kvs.map Prod.fst := by
        rw [List.map_map]; rfl
      rw [this]; exact hnd
    have hmem : (k, assocGet st.ctx k) ∈
        kvs.map fun p => (p.1, assocGet st.ctx p.1) := by
      obtain ⟨p, hp, hpk⟩ := List.mem_map.mp hk
      exact List.mem_map.mpr ⟨p, hp, by rw [hpk]⟩
    exact handleLet_restore_saved fuel st _ st2 (mkLetChildren kvs) rest _ res k
      (assocGet st.ctx k) heven hpairs hndv hmem hrun

/-- **C1** counterexample: `(let ((x 1 x 2)))` in an initially empty context
installs the key `x` twice; after the call, `x` is left bound to `"1"`
although it was unbound before the call, so an installed key is not
restored to its pre-call state even though the body evaluated without
incident. -/
theorem C1_counterexample :
    handleH 1 .letDir emptyEvaluator
        [.children [.owned "x", .owned "1", .owned "x", .owned "2"]] =
      some ({ emptyEvaluator with
        ctx := [("x", StoredValue.node (.owned "1"))] }, some "") ∧
    assocGet emptyEvaluator.ctx "x" = none := by
  constructor
  · simp [handleH, handleLet, letPairs, evaluate, handleConcat, evalConcat,
      restoreCtx, assocGet, assocInsert, assocRemove, emptyEvaluator]
  · rfl

/-- **C1** witness: a concrete `Let` call with distinct literal keys `x`,
`y` over a context `[x ↦ "0"]` and a body whose evaluation logs an error;
both installed keys are restored exactly to their pre-call state. -/
theorem C1_witness :
    assocGet ({ emptyEvaluator with
        ctx := [("x", StoredValue.node (.owned "0"))],
        errors := 1 } : Evaluator).ctx "x" =
      assocGet ({ emptyEvaluator with
        ctx := [("x", StoredValue.node (.owned "0"))] } : Evaluator).ctx "x" := by
  exact C1_let_restores_installed_keys.2 0
    { emptyEvaluator with ctx := [("x", StoredValue.node (.owned "0"))] }
    { emptyEvaluator with ctx := [("x", StoredValue.node (.owned "0"))], errors := 1 }
    [("x", "1"), ("y", "2")] [.children []] (some "") "x"
    (by decide) (by decide)
    (by simp [mkLetChildren, handleH, handleLet, letPairs, evaluate,
      handleConcat, evalConcat, restoreCtx, assocGet, assocInsert, assocRemove,
      recordError, emptyEvaluator])

/-- **C9** (confirmed).  When the same key occurs in two pairs of `Let`'s
binding group, the saved prior value recorded for the later pair is the
value installed by the earlier pair (conjunct 1: the second saved entry is
the earlier installed value, not the pre-call binding), and the in-order
restore loop therefore leaves the key bound after the call to the earlier
pair's value (conjunct 2) — different from the key's pre-call binding
whenever the two differ (conjunct 3). -/
theorem C9_let_duplicate_key_keeps_earlier_value :
    (∀ (fuel : Nat) (st : Evaluator) (k v1 v2 : String),
      letPairs fuel st (mkLetChildren [(k, v1), (k, v2)]) =
        some ({ st with ctx := installCtx st.ctx [(k, v1), (k, v2)] },
          [(k, assocGet st.ctx k), (k, some (StoredValue.node (.owned v1)))])) ∧
    (∀ (fuel : Nat) (st st2 : Evaluator) (k v1 v2 : String)
        (rest : List Node) (res : Option String),
      handleH fuel .letDir st
          (Node.children (mkLetChildren [(k, v1), (k, v2)]) :: rest) =
        some (st2, res) →
      assocGet st2.ctx k = some (StoredValue.node (.owned v1))) ∧
    (∀ (fuel : Nat) (st st2 : Evaluator) (k v1 v2 : String)
        (rest : List Node) (res : Option String),
      assocGet st.ctx k ≠ some (StoredValue.node (.owned v1)) →
      handleH fuel .letDir st
          (Node.children (mkLetChildren [(k, v1), (k, v2)]) :: rest) =
        some (st2, res) →
      assocGet st2.ctx k ≠ assocGet st.ctx k) := by
  have h1 : ∀ (fuel : Nat) (st : Evaluator) (k v1 v2 : String),
      letPairs fuel st (mkLetChildren [(k, v1), (k, v2)]) =
        some ({ st with ctx := installCtx st.ctx [(k, v1), (k, v2)] },
          [(k, assocGet st.ctx k), (k, some (StoredValue.node (.owned v1)))]) := by
    intro fuel st k v1 v2
    rw [letPairs_leaves]
    simp [savedCtx, assocGet_insert]
  have h2 : ∀ (fuel : Nat) (st st2 : Evaluator) (k v1 v2 : String)
      (rest : List Node) (res : Option String),
      handleH fuel .letDir st
          (Node.children (mkLetChildren [(k, v1), (k, v2)]) :: rest) =
        some (st2, res) →
      assocGet st2.ctx k = some (StoredValue.node (.owned v1)) := by
    intro fuel st st2 k v1 v2 rest res hrun
    have heven : (mkLetChildren [(k, v1), (k, v2)]).length % 2 = 0 := by
      simp [mkLetChildren]
    simp only [handleH, handleLet, heven, bne_self_eq_false, if_false,
      Bool.false_eq_true, h1, Option.some_bind] at hrun
    cases hcc : handleConcat fuel
        { st with ctx := installCtx st.ctx [(k, v1), (k, v2)] } rest with
    | none => rw [hcc] at hrun; cases hrun
    | some p =>
      obtain ⟨stB, r⟩ := p
      rw [hcc] at hrun
      simp only [Option.map_some', Option.some.injEq, Prod.mk.injEq] at hrun
      obtain ⟨hst, _⟩ := hrun
      rw [← hst]
      show assocGet (restoreCtx stB.ctx
        [(k, assocGet st.ctx k), (k, some (StoredValue.node (.owned v1)))]) k = _
      cases horig : assocGet st.ctx k with
      | some w =>
        simp [restoreCtx, assocGet_insert]
      | none =>
        simp [restoreCtx, assocGet_insert]
  refine ⟨h1, h2, ?_⟩
  intro fuel st st2 k v1 v2 rest res hne hrun heq
  exact hne (heq ▸ h2 fuel st st2 k v1 v2 rest res hrun)

/-- **C9** witness: `(let ((x 1 x 2)))` over an empty context leaves `x`
bound to `"1"` after the call. -/
theorem C9_witness :
    assocGet ({ emptyEvaluator with
        ctx := [("x", StoredValue.node (.owned "1"))] } : Evaluator).ctx "x" =
      some (StoredValue.node (.owned "1")) :=
  C9_let_duplicate_key_keeps_earlier_value.2.1 1 emptyEvaluator
    { emptyEvaluator with ctx := [("x", StoredValue.node (.owned "1"))] }
    "x" "1" "2" [] (some "")
    (by simp [mkLetChildren, handleH, handleLet, letPairs, evaluate,
      handleConcat, evalConcat, restoreCtx, assocGet, assocInsert, assocRemove,
      emptyEvaluator])

/-- **C7** (confirmed).  The no-op directive always succeeds:
`Dummy::handle` returns `Ok("")` for every evaluator state and every
argument list — empty, leaves or groups — and leaves the state unchanged. -/
theorem C7_dummy_always_succeeds (fuel : Nat) (st : Evaluator)
    (args : List Node) :
    handleH fuel .dummy st args = some (st, some "") := by
  simp [handleH]

/-- **C5** (confirmed).  `Import::handle` agrees with `Include::handle` on
every state and argument list: it panics or fails exactly when `Include`
does, ends in exactly the same evaluator state (the same parsing and
evaluation side effects), and on success returns empty text in place of the
included file's output. -/
theorem C5_import_refines_include (fuel : Nat) (st : Evaluator)
    (args : List Node) :
    handleH fuel .importDir st args =
      (handleH fuel .includeDir st args).map fun p =>
        (p.1, p.2.map fun _ => "") := by
  simp only [handleH, handleImport]

theorem evalConcat_append (fuel : Nat) (st : Evaluator) (xs ys : List Node) :
    evalConcat fuel st (xs ++ ys) =
      (evalConcat fuel st xs).bind fun p1 =>
        (evalConcat fuel p1.1 ys).map fun p2 => (p2.1, p1.2 ++ p2.2) := by
  induction xs generalizing st with
  | nil =>
    simp only [List.nil_append, evalConcat, Option.some_bind]
    cases h : evalConcat fuel st ys with
    | none => simp [h]
    | some p =>
      obtain ⟨st2, s2⟩ := p
      simp [h]
  | cons n rest ih =>
    simp only [List.cons_append, evalConcat]
    cases h : evaluate fuel st n with
    | none => simp [h]
    | some p =>
      obtain ⟨st1, s⟩ := p
      simp only [h, Option.some_bind, ih]
      cases h2 : evalConcat fuel st1 rest with
      | none => simp [h2]
      | some q =>
        obtain ⟨stA, sA⟩ := q
        simp only [h2, Option.some_bind, Option.map_some']
        cases h3 : evalConcat fuel stA ys with
        | none => simp [h3]
        | some w =>
          obtain ⟨stC, sC⟩ := w
          simp [h3, String.append_assoc]

/-- **C6** (confirmed).  `Concat::handle` wraps the in-order
evaluate-and-concatenate fold (conjunct 1), returns empty text for zero
arguments (conjunct 2), splits over list concatenation (conjunct 3), and is
associative in the claimed sense: running `Concat([a,b,c])` equals running
`Concat` on `[a]`, `[b]`, `[c]` in sequence, threading the evaluator state
and concatenating the three outputs (conjunct 4). -/
theorem C6_concat_empty_append_associative :
    (∀ (fuel : Nat) (st : Evaluator) (args : List Node),
      handleH fuel .concat st args =
        (evalConcat fuel st args).map fun p => (p.1, some p.2)) ∧
    (∀ (fuel : Nat) (st : Evaluator),
      handleH fuel .concat st [] = some (st, some "")) ∧
    (∀ (fuel : Nat) (st : Evaluator) (xs ys : List Node),
      evalConcat fuel st (xs ++ ys) =
        (evalConcat fuel st xs).bind fun p1 =>
          (evalConcat fuel p1.1 ys).map fun p2 => (p2.1, p1.2 ++ p2.2)) ∧
    (∀ (fuel : Nat) (st : Evaluator) (a b c : Node),
      evalConcat fuel st [a, b, c] =
        (evalConcat fuel st [a]).bind fun p1 =>
          (evalConcat fuel p1.1 [b]).bind fun p2 =>
            (evalConcat fuel p2.1 [c]).map fun p3 =>
              (p3.1, p1.2 ++ p2.2 ++ p3.2)) := by
  have hwrap : ∀ (fuel : Nat) (st : Evaluator) (args : List Node),
      handleH fuel .concat st args =
        (evalConcat fuel st args).map fun p => (p.1, some p.2) := by
    intro fuel st args
    simp only [handleH, handleConcat]
  refine ⟨hwrap, ?_, evalConcat_append, ?_⟩
  · intro fuel st
    rw [hwrap]
    simp [evalConcat]
  · intro fuel st a b c
    have h1 : [a, b, c] = [a] ++ ([b] ++ [c]) := rfl
    rw [h1, evalConcat_append]
    cases ha : evalConcat fuel st [a] with
    | none => rfl
    | some p1 =>
      obtain ⟨st1, s1⟩ := p1
      simp only [Option.some_bind, evalConcat_append]
      cases hb : evalConcat fuel st1 [b] with
      | none => simp [hb]
      | some p2 =>
        obtain ⟨st2, s2⟩ := p2
        simp only [hb, Option.some_bind, Option.map_some', Option.map_map]
        cases hc : evalConcat fuel st2 [c] with
        | none => simp [hc]
        | some p3 =>
          obtain ⟨st3, s3⟩ := p3
          simp [hc, Function.comp, String.append_assoc]

/-- **C2** (corrected).  `Version::handle`: zero arguments yield the full
joined version (conjunct 1); one argument whose evaluation yields `s`
returns the empty string for empty `s` and otherwise slices the version
vector to `count('.', s) + 1` components — *which panics* when `s` has at
least as many dots as the version has components, so the result is not
defined for every `s` (conjunct 2); two or more arguments are an error
(conjunct 3). -/
theorem C2_version_arity_truncation :
    (∀ (fuel : Nat) (st : Evaluator) (v : List String),
      handleH fuel (.version v) st [] =
        some (st, some (String.intercalate "." v))) ∧
    (∀ (fuel : Nat) (st st1 : Evaluator) (v : List String) (a : Node)
        (s : String),
      evaluate fuel st a = some (st1, s) →
      handleH fuel (.version v) st [a] =
        if s = "" then some (st1, some "")
        else if countDots s + 1 ≤ v.length then
          some (st1, some (String.intercalate "." (v.take (countDots s + 1))))
        else none) ∧
    (∀ (fuel : Nat) (st : Evaluator) (v : List String) (a b : Node)
        (rest : List Node),
      handleH fuel (.version v) st (a :: b :: rest) = some (st, none)) := by
  refine ⟨?_, ?_, ?_⟩
  · intro fuel st v
    simp [handleH, handleVersion]
  · intro fuel st st1 v a s hev
    simp only [handleH, handleVersion, hev, Option.some_bind]
    by_cases hs : s = ""
    · simp [hs]
    · simp only [hs, if_false]
      rw [sliceTo]
      by_cases hle : countDots s + 1 ≤ v.length
      · simp [hle]
      · simp [hle]
  · intro fuel st v a b rest
    simp [handleH, handleVersion]

/-- **C2** counterexample: with the registered version `"3.4.0"` (three
components), the call `(version "1.2.3.4")` asks for four components and
the slice `&self.version[..4]` panics — the modelled evaluation is `none`
rather than any `Ok`/`Err` result, refuting "a defined, non-failing result
for every s". -/
theorem C2_counterexample :
    handleH 0 (.version (versionNew "3.4.0")) emptyEvaluator
        [.owned "1.2.3.4"] = none := by
  have hv : versionNew "3.4.0" = ["3", "4", "0"] := by decide
  rw [hv]
  simp [handleH, handleVersion, evaluate, sliceTo,
    (by decide : countDots "1.2.3.4" = 3)]

/-- **C2** witness: `(version "x.y")` against version `"3.4.0"` truncates to
two components. -/
theorem C2_witness :
    handleH 0 (.version ["3", "4", "0"]) emptyEvaluator [.owned "x.y"] =
      some (emptyEvaluator, some "3.4") := by
  have h := C2_version_arity_truncation.2.1 0 emptyEvaluator emptyEvaluator
    ["3", "4", "0"] (.owned "x.y") "x.y" (by simp [evaluate])
  rw [if_neg (by decide), if_pos (by decide),
    (by decide : String.intercalate "."
      (["3", "4", "0"].take (countDots "x.y" + 1)) = "3.4")] at h
  exact h

/-- **C4** (corrected).  `Heading::handle` for any heading level 1–6: zero
arguments fail (conjunct 1); one argument yields the literal heading text at
that level (conjunct 2); two *or more* arguments treat the first two as
`(refId, title)`, register a `RefDef` mapping the refId to the title and
the current page's slug, return the title heading, and silently ignore any
further arguments instead of failing (conjunct 3). -/
theorem C4_heading_arity :
    (∀ (fuel : Nat) (st : Evaluator) (n : Nat) (hl : String),
      headingLevelStr n = some hl →
      handleH fuel (.heading hl) st [] = some (st, none)) ∧
    (∀ (fuel : Nat) (st : Evaluator) (n : Nat) (hl : String) (a : String),
      headingLevelStr n = some hl →
      handleH fuel (.heading hl) st [.owned a] =
        some (st, some (headingFormat hl a))) ∧
    (∀ (fuel : Nat) (st : Evaluator) (n : Nat) (hl : String) (a b : String)
        (rest : List Node),
      headingLevelStr n = some hl →
      handleH fuel (.heading hl) st (.owned a :: .owned b :: rest) =
        some ({ st with
          refdefs := assocInsert st.refdefs a ⟨b, st.currentSlug⟩ },
          some (headingFormat hl b))) := by
  refine ⟨?_, ?_, ?_⟩
  · intro fuel st n hl _
    simp [handleH, handleHeading]
  · intro fuel st n hl a _
    simp [handleH, handleHeading, consumeOne]
  · intro fuel st n hl a b rest _
    simp [handleH, handleHeading, consumeOne]

/-- **C4** counterexample: a level-2 heading invoked with three arguments
succeeds — it registers the refdef for the first two and returns the title
heading, ignoring the third — where the claim requires an error. -/
theorem C4_counterexample :
    handleH 0 (.heading "##") emptyEvaluator
        [.owned "a", .owned "b", .owned "c"] =
      some ({ emptyEvaluator with refdefs := [("a", ⟨"b", ""⟩)] },
        some "\n## b\n") := by
  simp [handleH, handleHeading, consumeOne, headingFormat, assocInsert,
    emptyEvaluator]

/-- **C4** witness: a level-2 heading with one argument is the literal
heading text. -/
theorem C4_witness :
    handleH 0 (.heading "##") emptyEvaluator [.owned "t"] =
      some (emptyEvaluator, some (headingFormat "##" "t")) :=
  C4_heading_arity.2.1 0 emptyEvaluator 2 "##" "t" rfl

theorem stringMk_toList (s : String) : String.mk s.toList = s := rfl

theorem templateGo_nil_args (fuel : Nat) (st : Evaluator)
    (cs : List RegexMatcher) :
    templateGo fuel st [] cs =
      some (st, if allChecksPass [] cs then some (padArgs [] cs.length)
        else none) := by
  induction cs with
  | nil => simp [templateGo, allChecksPass, padArgs]
  | cons c cs' ih =>
    rw [templateGo]
    by_cases hc : c "" = true
    · rw [if_pos hc, ih]
      by_cases hrec : allChecksPass [] cs' = true
      · simp [hrec, allChecksPass, hc, padArgs, List.replicate_succ]
      · simp [hrec, allChecksPass, hc]
    · rw [if_neg hc]
      simp only [allChecksPass, Bool.and_eq_true] at hc ⊢
      simp [hc]

theorem templateGo_leaves (fuel : Nat) (st : Evaluator) (strs : List String)
    (cs : List RegexMatcher) :
    templateGo fuel st (strs.map Node.owned) cs =
      some (st, if allChecksPass strs cs then some (padArgs strs cs.length)
        else none) := by
  induction strs generalizing st cs with
  | nil => exact templateGo_nil_args fuel st cs
  | cons s ss ih =>
    rw [List.map_cons, templateGo]
    cases cs with
    | nil =>
      simp only [consumeOne, Option.some_bind, ih, allChecksPass]
      simp [padArgs]
    | cons c cs2 =>
      simp only [consumeOne, Option.some_bind]
      by_cases hc : c s = true
      · rw [if_pos hc, ih]
        by_cases hrec : allChecksPass ss cs2 = true
        · simp [hrec, allChecksPass, hc, padArgs]
        · simp [hrec, allChecksPass, hc]
      · rw [if_neg hc]
        simp only [allChecksPass, Bool.and_eq_true] at hc ⊢
        simp [hc]

theorem consumeList_leaves (fuel : Nat) (st : Evaluator)
    (strs : List String) :
    consumeList fuel st (strs.map Node.owned) = some (st, strs) := by
  induction strs generalizing st with
  | nil => rfl
  | cons s ss ih =>
    simp [consumeList, consumeOne, ih]

theorem templateGo_of_checks_pass (fuel : Nat) (args : List Node) :
    ∀ (st st' : Evaluator) (strs : List String) (cs : List RegexMatcher),
    consumeList fuel st args = some (st', strs) →
    allChecksPass strs cs = true →
    templateGo fuel st args cs = some (st', some (padArgs strs cs.length)) := by
  induction args with
  | nil =>
    intro st st' strs cs hc hp
    simp only [consumeList, Option.some.injEq, Prod.mk.injEq] at hc
    obtain ⟨hst, hstrs⟩ := hc
    subst hst
    subst hstrs
    rw [templateGo_nil_args, hp]
    simp
  | cons a rest ih =>
    intro st st' strs cs hc hp
    simp only [consumeList] at hc
    cases h1 : consumeOne fuel st a with
    | none => rw [h1] at hc; cases hc
    | some p =>
      obtain ⟨st1, s⟩ := p
      rw [h1] at hc
      simp only [Option.some_bind] at hc
      cases h2 : consumeList fuel st1 rest with
      | none => rw [h2] at hc; cases hc
      | some q =>
        obtain ⟨st2, ss⟩ := q
        rw [h2] at hc
        simp only [Option.map_some', Option.some.injEq, Prod.mk.injEq] at hc
        obtain ⟨hst, hstrs⟩ := hc
        subst hstrs
        rw [← hst]
        cases cs with
        | nil =>
          have hrec := ih st1 st2 ss [] h2 (by cases ss <;> rfl)
          simp only [templateGo, h1, Option.some_bind, hrec, Option.map_some']
          simp [padArgs]
        | cons c cs2 =>
          simp only [allChecksPass, Bool.and_eq_true] at hp
          have hrec := ih st1 st2 ss cs2 h2 hp.2
          simp only [templateGo, h1, Option.some_bind, if_pos hp.1, hrec,
            Option.map_some']
          simp [padArgs]

theorem templateGo_of_checks_fail (fuel : Nat) (args : List Node) :
    ∀ (st st' : Evaluator) (strs : List String) (cs : List RegexMatcher),
    consumeList fuel st args = some (st', strs) →
    allChecksPass strs cs = false →
    ∃ stE, templateGo fuel st args cs = some (stE, none) := by
  induction args with
  | nil =>
    intro st st' strs cs hc hp
    simp only [consumeList, Option.some.injEq, Prod.mk.injEq] at hc
    obtain ⟨hst, hstrs⟩ := hc
    subst hst
    subst hstrs
    refine ⟨st, ?_⟩
    rw [templateGo_nil_args, hp]
    simp
  | cons a rest ih =>
    intro st st' strs cs hc hp
    simp only [consumeList] at hc
    cases h1 : consumeOne fuel st a with
    | none => rw [h1] at hc; cases hc
    | some p =>
      obtain ⟨st1, s⟩ := p
      rw [h1] at hc
      simp only [Option.some_bind] at hc
      cases h2 : consumeList fuel st1 rest with
      | none => rw [h2] at hc; cases hc
      | some q =>
        obtain ⟨st2, ss⟩ := q
        rw [h2] at hc
        simp only [Option.map_some', Option.some.injEq, Prod.mk.injEq] at hc
        obtain ⟨hst, hstrs⟩ := hc
        subst hstrs
        cases cs with
        | nil => simp [allChecksPass] at hp
        | cons c cs2 =>
          by_cases hcs : c s = true
          · rw [allChecksPass, hcs, Bool.true_and] at hp
            obtain ⟨stE, hE⟩ := ih st1 st2 ss cs2 h2 hp
            refine ⟨stE, ?_⟩
            simp only [templateGo, h1, Option.some_bind, if_pos hcs, hE,
              Option.map_some']
            rfl
          · refine ⟨st1, ?_⟩
            simp only [templateGo, h1, Option.some_bind, if_neg hcs]

/-- **C3** (confirmed).  A user-defined template invocation with arbitrary
call-site arguments (leaves or nested calls): whenever evaluating the
arguments in order yields the strings `strs` and every position of that
list padded out to the checker count passes its positional checker, the
call substitutes the padded arguments into the template — and dies there
only if the template itself holds a marker with a matched non-ascii digit
(conjunct 1); on any checker mismatch the whole call fails (conjunct 2);
for literal arguments this is the closed-form equation of conjunct 3.  The
padded list has length `max(call argument count, checker count)`
(conjunct 4) and positions beyond the checker list never fail
(conjunct 5).  A `${9}` marker is replaced by argument 9, whose `getD`
default is empty text whenever the index is out of range (conjunct 6),
while a marker holding the non-ascii decimal digit `٣` matches `\d` and
panics in `str::parse::<usize>` (conjunct 7).  In particular the template
`"[${0}](${1})"` with checkers `^.+$` and `^/.*$` renders
`("Title", "/path/")` to `"[Title](/path/)"` (conjunct 8) and rejects
`("Title", "path")` with a validation error (conjunct 9). -/
theorem C3_template_validation_substitution :
    (∀ (fuel : Nat) (st st' : Evaluator) (tmpl : String)
        (cs : List RegexMatcher) (args : List Node) (strs : List String),
      consumeList fuel st args = some (st', strs) →
      allChecksPass strs cs = true →
      handleH fuel (.template tmpl cs) st args =
        (tmplSubst tmpl (padArgs strs cs.length)).map fun out =>
          (st', some out)) ∧
    (∀ (fuel : Nat) (st st' : Evaluator) (tmpl : String)
        (cs : List RegexMatcher) (args : List Node) (strs : List String),
      consumeList fuel st args = some (st', strs) →
      allChecksPass strs cs = false →
      (handleH fuel (.template tmpl cs) st args).map (fun p => p.2) =
        some none) ∧
    (∀ (fuel : Nat) (st : Evaluator) (tmpl : String)
        (cs : List RegexMatcher) (strs : List String),
      handleH fuel (.template tmpl cs) st (strs.map Node.owned) =
        if allChecksPass strs cs then
          (tmplSubst tmpl (padArgs strs cs.length)).map fun out =>
            (st, some out)
        else some (st, none)) ∧
    (∀ (strs : List String) (cs : List RegexMatcher),
      (padArgs strs cs.length).length = max strs.length cs.length) ∧
    (∀ (strs : List String), allChecksPass strs [] = true) ∧
    (∀ (args : List String),
      tmplSubst (String.mk ['$', '\x7b', '9', '\x7d']) args =
        some (args.getD 9 "")) ∧
    (∀ (args : List String),
      tmplSubst (String.mk ['$', '\x7b', '٣', '\x7d']) args = none) ∧
    (handleH 0 (.template "[$\x7b0\x7d]($\x7b1\x7d)"
        [reNonEmptyLine, reSlashLine]) emptyEvaluator
        [.owned "Title", .owned "/path/"] =
      some (emptyEvaluator, some "[Title](/path/)")) ∧
    (handleH 0 (.template "[$\x7b0\x7d]($\x7b1\x7d)"
        [reNonEmptyLine, reSlashLine]) emptyEvaluator
        [.owned "Title", .owned "path"] =
      some (emptyEvaluator, none)) := by
  refine ⟨?_, ?_, ?_, ?_, ?_, ?_, ?_, ?_, ?_⟩
  · intro fuel st st' tmpl cs args strs hc hp
    have hgo := templateGo_of_checks_pass fuel args st st' strs cs hc hp
    simp only [handleH, handleTemplate, hgo, Option.some_bind]
  · intro fuel st st' tmpl cs args strs hc hp
    obtain ⟨stE, hgo⟩ := templateGo_of_checks_fail fuel args st st' strs cs hc hp
    simp only [handleH, handleTemplate, hgo, Option.some_bind, Option.map_some']
  · intro fuel st tmpl cs strs
    simp only [handleH, handleTemplate, templateGo_leaves fuel st strs cs,
      Option.some_bind]
    by_cases hpass : allChecksPass strs cs = true
    · simp [hpass]
    · simp [hpass]
  · intro strs cs
    simp [padArgs]
    omega
  · intro strs
    cases strs <;> rfl
  · intro args
    simp [tmplSubst, substGo, stringMk_toList]
  · intro args
    simp [tmplSubst, substGo,
      (by decide : (Char.isDigit '٣') = false),
      (by decide : unicodeNd '٣' = true)]
  · simp +decide [handleH, handleTemplate, templateGo, consumeOne, evaluate,
      tmplSubst, substGo, reNonEmptyLine, reSlashLine]
  · simp +decide [handleH, handleTemplate, templateGo, consumeOne, evaluate,
      reNonEmptyLine, reSlashLine]

/-- **C3** witness: a template with no checkers applied to one *group*
argument (an empty group, whose evaluation logs an error and yields empty
text): the argument-evaluation hypothesis and the all-checks-pass
hypothesis are discharged concretely and the call renders the marker with
the evaluated group's text. -/
theorem C3_witness :
    handleH 0 (.template "<$\x7b0\x7d>" []) emptyEvaluator [.children []] =
      some (recordError emptyEvaluator, some "<>") := by
  have h := C3_template_validation_substitution.1 0 emptyEvaluator
    (recordError emptyEvaluator) "<$\x7b0\x7d>" [] [.children []] [""]
    (by simp [consumeList, consumeOne, evaluate]) rfl
  simp only [List.length_nil] at h
  rw [(by decide : tmplSubst "<$\x7b0\x7d>" (padArgs [""] 0) = some "<>")] at h
  simpa using h

/-- **C10** (confirmed).  `Template`'s marker substitution recognizes only
single-digit indices: the marker `${10}` is left verbatim (and the scan
succeeds) for every argument list, on its own (conjunct 1) or embedded in
surrounding text (conjunct 2), while a marker `${d}` with any single digit
`d` is replaced by argument number `d` — empty text when that index is out
of range (conjunct 3). -/
theorem C10_template_single_digit_markers :
    (∀ (args : List String),
      tmplSubst "$\x7b10\x7d" args = some "$\x7b10\x7d") ∧
    (∀ (args : List String),
      tmplSubst "[$\x7b10\x7d]" args = some "[$\x7b10\x7d]") ∧
    (∀ (args : List String) (c : Char), c.isDigit = true →
      tmplSubst (String.mk ['$', '\x7b', c, '\x7d']) args =
        some (args.getD (c.toNat - '0'.toNat) "")) := by
  refine ⟨?_, ?_, ?_⟩
  · intro args
    simp [tmplSubst, substGo]
  · intro args
    simp [tmplSubst, substGo]
  · intro args c hc
    simp [tmplSubst, substGo, hc, stringMk_toList]

/-- **C10** witness: the marker `${3}` with four arguments picks the
fourth. -/
theorem C10_witness :
    tmplSubst (String.mk ['$', '\x7b', '3', '\x7d']) ["a", "b", "c", "d"] =
      some (["a", "b", "c", "d"].getD ('3'.toNat - '0'.toNat) "") :=
  C10_template_single_digit_markers.2.2 ["a", "b", "c", "d"] '3' rfl

theorem tocGo_malformed_group (fuel : Nat) (st : Evaluator) (cur : String)
    (bad : List Node) (rest : List Node) (h : bad.length ≠ 2) :
    tocGo fuel st cur (.children bad :: rest) = some (st, none) := by
  match bad, h with
  | [], _ => simp [tocGo]
  | [x], _ => simp [tocGo]
  | [x, y], h => exact absurd rfl h
  | x :: y :: z :: t, _ => simp [tocGo]

/-- **C8** (confirmed).  `TocTree::handle` is not atomic: a prefix of bare
slug arguments is appended to the toctree under the current slug
(conjunct 1); when a malformed group (length ≠ 2) follows any prefix, the
call runs the prefix — keeping every addition it made — and then errs with
no rollback, so the final state is exactly the prefix's state (conjunct 2);
the directive dispatches to this argument walk with the current page's slug
(conjunct 3). -/
theorem C8_toctree_no_rollback :
    (∀ (fuel : Nat) (st : Evaluator) (cur : String) (slugs : List String),
      tocGo fuel st cur (slugs.map Node.owned) =
        some ({ st with
          toctree := st.toctree ++ slugs.map fun s => (cur, s, none) },
          some "")) ∧
    (∀ (fuel : Nat) (st : Evaluator) (cur : String) (pre : List Node)
        (bad rest : List Node),
      bad.length ≠ 2 →
      tocGo fuel st cur (pre ++ .children bad :: rest) =
        (tocGo fuel st cur pre).map fun p => (p.1, none)) ∧
    (∀ (fuel : Nat) (st : Evaluator) (args : List Node),
      handleH fuel .toctree st args = tocGo fuel st st.currentSlug args) := by
  refine ⟨?_, ?_, ?_⟩
  · intro fuel st cur slugs
    induction slugs generalizing st with
    | nil => simp [tocGo]
    | cons s ss ih =>
      simp only [List.map_cons, tocGo, ih]
      simp
  · intro fuel st cur pre bad rest hbad
    induction pre generalizing st with
    | nil =>
      rw [List.nil_append, tocGo_malformed_group fuel st cur bad rest hbad]
      simp [tocGo]
    | cons hd tl ih =>
      cases hd with
      | owned slug =>
        simp only [List.cons_append, tocGo, ih]
      | children cs =>
        match cs with
        | [c0, c1] =>
          simp only [List.cons_append, tocGo]
          cases h0 : evaluate fuel st c0 with
          | none => simp [h0]
          | some p =>
            obtain ⟨st1, title⟩ := p
            cases h1 : evaluate fuel st1 c1 with
            | none => simp [h0, h1]
            | some q =>
              obtain ⟨st2, slug⟩ := q
              simp only [h0, h1, Option.some_bind, ih]
        | [] => simp [tocGo]
        | [x] => simp [tocGo]
        | x :: y :: z :: t => simp [tocGo]
  · intro fuel st args
    simp only [handleH]

/-- **C8** witness: one good bare-slug argument followed by an empty group:
the call errs but the first addition is already in the toctree and stays. -/
theorem C8_witness :
    tocGo 0 emptyEvaluator "p" ([.owned "a"] ++ .children [] :: [.owned "z"]) =
      (tocGo 0 emptyEvaluator "p" [.owned "a"]).map fun p => (p.1, none) :=
  C8_toctree_no_rollback.2.1 0 emptyEvaluator "p" [.owned "a"] [] [.owned "z"]
    (by decide)

end Rocket
